import Mathlib

/-!
Verification of the todo-list CRUD core.

The persisted table is modelled as a list of rows in insertion order together
with the auto-increment counter of the primary key (`DB`).  Server time
(SQL `NOW()`) is passed to each mutating handler as an explicit natural
number `t`; read handlers take no time.  Each handler returns its
RPC result paired with the table state after the call, so that failing calls
still expose their (unchanged) table.

Handlers embedded from the source:
  - `getTodos`              from src/server/src/handlers/get_todos.ts
  - `updateTodoCompletion`  from src/unnamed/part_000 (the implemented handler)
Handlers whose implementation file is absent from the repository snapshot
(`createTodo`, `deleteTodo`) are modelled from the specification; their doc
comments say so explicitly.
-/

namespace TodoApp

/-- A row of the todos table: integer primary key, title, nullable
`description`, completion flag, and the two timestamps. -/
structure Todo where
  id : Nat
  title : String
  description : Option String
  completed : Bool
  created_at : Nat
  updated_at : Nat
deriving Repr, DecidableEq

/-- The persisted table: rows in insertion order plus the auto-increment
counter for the serial primary key (PostgreSQL serials start at 1). -/
structure DB where
  rows : List Todo
  nextId : Nat
deriving Repr, DecidableEq

/-- The freshly created (or reset) database: no rows, serial counter at 1. -/
def DB.empty : DB := { rows := [], nextId := 1 }

/-- Input of `createTodo`.  The outer `Option` distinguishes an omitted
`description` field (`none`) from an explicitly supplied one (`some`); the
inner `Option` is the SQL nullability (`some none` is an explicit null). -/
structure CreateTodoInput where
  title : String
  description : Option (Option String)
deriving Repr, DecidableEq

/-- Input of `updateTodoCompletion`: the target id and the new flag value. -/
structure UpdateTodoCompletionInput where
  id : Nat
  completed : Bool
deriving Repr, DecidableEq

/-- Input of `deleteTodo`: the target id. -/
structure DeleteTodoInput where
  id : Nat
deriving Repr, DecidableEq

/-- Output of `deleteTodo`. -/
structure DeleteResult where
  success : Bool
deriving Repr, DecidableEq

/-- Embedded from src/server/src/handlers/get_todos.ts: `db.select()
.from(todosTable).execute()` fetches every row of the table, which is
returned as is; the table is not touched. -/
def getTodos (db : DB) : List Todo × DB :=
  (db.rows, db)

/-- The row transformer of the SQL `UPDATE todos SET completed = c,
updated_at = NOW() WHERE id = i`: a matching row gets the new flag and
timestamp, any other row is untouched. -/
def applyCompletion (i : Nat) (c : Bool) (t : Nat) (r : Todo) : Todo :=
  if r.id == i then { r with completed := c, updated_at := t } else r

/-- Embedded from src/unnamed/part_000 (the implemented handler):
`db.update(todosTable).set(\x7b completed, updated_at: NOW() \x7d)
.where(eq(todosTable.id, input.id)).returning()` runs the update, and the
`RETURNING` rows are the updated matching rows; if none matched the handler
throws `Todo with id \x7bid\x7d not found`, otherwise it returns the first
returned row. -/
def updateTodoCompletion (db : DB) (t : Nat) (input : UpdateTodoCompletionInput) :
    Except String Todo × DB :=
  let updated := db.rows.map (applyCompletion input.id input.completed t)
  let result := updated.filter (fun r => r.id == input.id)
  (match result with
   | [] => Except.error ("Todo with id " ++ toString input.id ++ " not found")
   | r :: _ => Except.ok r,
   { db with rows := updated })

/-- Modelled from the spec: the file src/server/src/handlers/create_todo.ts is
absent from the snapshot (only its tests are present).  Per the spec,
`createTodo` requires a non-empty `title`; `description` is optional and
treated as absent when omitted or explicitly null; the Store inserts a row
with `completed := false`, the server-assigned serial id, and
`created_at = updated_at = now`. -/
def createTodo (db : DB) (t : Nat) (input : CreateTodoInput) :
    Except String Todo × DB :=
  if input.title == "" then
    (Except.error "Title is required", db)
  else
    let todo : Todo :=
      { id := db.nextId
        title := input.title
        description := input.description.join
        completed := false
        created_at := t
        updated_at := t }
    (Except.ok todo, { rows := db.rows ++ [todo], nextId := db.nextId + 1 })

/-- Modelled from the spec: the file src/server/src/handlers/delete_todo.ts is
absent from the snapshot (only its tests are present).  Per the spec,
`Store.deleteById` removes the row matching the id and reports whether a row
was actually removed; the Service wraps that boolean as `success` and never
raises for a missing id. -/
def deleteTodo (db : DB) (input : DeleteTodoInput) : DeleteResult × DB :=
  let removed := db.rows.any (fun r => r.id == input.id)
  ({ success := removed },
   { db with rows := db.rows.filter (fun r => !(r.id == input.id)) })

/-- Sequential creations sharing one server instant, used to state the
"N creations yield N rows" property. -/
def createMany (db : DB) (t : Nat) (inputs : List CreateTodoInput) : DB :=
  inputs.foldl (fun d input => (createTodo d t input).2) db

/-- Well-formedness of a table state at server time `t`: row ids strictly
increase along insertion order (hence are unique), every id is below the
serial counter, `created_at ≤ updated_at` on every row, and no timestamp is
in the future of `t`. -/
def WF (t : Nat) (db : DB) : Prop :=
  db.rows.Pairwise (fun a b => a.id < b.id) ∧
  (∀ r ∈ db.rows, r.id < db.nextId) ∧
  (∀ r ∈ db.rows, r.created_at ≤ r.updated_at) ∧
  (∀ r ∈ db.rows, r.updated_at ≤ t)

instance (t : Nat) (db : DB) : Decidable (WF t db) := by
  unfold WF
  infer_instance

/-- The table states reachable from the empty database by the four handlers,
with server time advancing monotonically (`tick`). -/
inductive Reachable : Nat → DB → Prop where
  | init : Reachable 0 DB.empty
  | tick {t t' : Nat} {db : DB} : Reachable t db → t ≤ t' → Reachable t' db
  | create {t : Nat} {db : DB} (input : CreateTodoInput) :
      Reachable t db → Reachable t (createTodo db t input).2
  | list {t : Nat} {db : DB} :
      Reachable t db → Reachable t (getTodos db).2
  | update {t : Nat} {db : DB} (input : UpdateTodoCompletionInput) :
      Reachable t db → Reachable t (updateTodoCompletion db t input).2
  | remove {t : Nat} {db : DB} (input : DeleteTodoInput) :
      Reachable t db → Reachable t (deleteTodo db input).2

/-- A small concrete table used to instantiate the theorems: one stored row
with id 1, inserted at server time 0. -/
def sampleDB : DB :=
  { rows := [{ id := 1, title := "Buy milk", description := none,
               completed := false, created_at := 0, updated_at := 0 }],
    nextId := 2 }

/-! ### Basic lemmas about the row transformer and the handlers -/

theorem forall₂_map_self {α β : Type} (f : α → β) (R : α → β → Prop)
    (l : List α) (h : ∀ x ∈ l, R x (f x)) : List.Forall₂ R l (l.map f) := by
  induction l with
  | nil => exact List.Forall₂.nil
  | cons a l ih =>
      exact List.Forall₂.cons (h a (List.mem_cons_self a l))
        (ih fun x hx => h x (List.mem_cons_of_mem a hx))

theorem applyCompletion_id (i : Nat) (c : Bool) (t : Nat) (r : Todo) :
    (applyCompletion i c t r).id = r.id := by
  unfold applyCompletion; split <;> rfl

theorem applyCompletion_of_ne {i : Nat} {r : Todo} (c : Bool) (t : Nat)
    (h : r.id ≠ i) : applyCompletion i c t r = r := by
  simp [applyCompletion, h]

theorem applyCompletion_of_eq {i : Nat} {r : Todo} (c : Bool) (t : Nat)
    (h : r.id = i) :
    applyCompletion i c t r = { r with completed := c, updated_at := t } := by
  simp [applyCompletion, h]

theorem updateTodoCompletion_snd (db : DB) (t : Nat)
    (input : UpdateTodoCompletionInput) :
    (updateTodoCompletion db t input).2 =
      { db with rows := db.rows.map (applyCompletion input.id input.completed t) } :=
  rfl

theorem deleteTodo_snd (db : DB) (input : DeleteTodoInput) :
    (deleteTodo db input).2 =
      { db with rows := db.rows.filter (fun r => !(r.id == input.id)) } :=
  rfl

/-! ### Lookup lemmas under unique (strictly increasing) row ids -/

theorem filter_eq_singleton_of_mem {l : List Todo} {r : Todo} {i : Nat}
    (hp : l.Pairwise (fun a b => a.id < b.id)) (hr : r ∈ l) (hid : r.id = i) :
    l.filter (fun x => x.id == i) = [r] := by
  induction l with
  | nil => cases hr
  | cons a l ih =>
      rcases List.pairwise_cons.mp hp with ⟨ha, hp'⟩
      rcases List.mem_cons.mp hr with rfl | hr'
      · have hnone : ∀ x ∈ l, ¬((x.id == i) = true) := by
          intro x hx
          have hx' := ha x hx
          simp only [beq_iff_eq]
          omega
        rw [List.filter_cons, if_pos (by simp [hid]),
          List.filter_eq_nil_iff.mpr hnone]
      · have hai : ¬((a.id == i) = true) := by
          have hlt := ha r hr'
          simp only [beq_iff_eq]
          omega
        rw [List.filter_cons, if_neg hai]
        exact ih hp' hr'

theorem filter_ne_length_of_mem {l : List Todo} {r : Todo} {i : Nat}
    (hp : l.Pairwise (fun a b => a.id < b.id)) (hr : r ∈ l) (hid : r.id = i) :
    (l.filter (fun x => !(x.id == i))).length + 1 = l.length := by
  induction l with
  | nil => cases hr
  | cons a l ih =>
      rcases List.pairwise_cons.mp hp with ⟨ha, hp'⟩
      rcases List.mem_cons.mp hr with rfl | hr'
      · have hall : ∀ x ∈ l, (!(x.id == i)) = true := by
          intro x hx
          have hx' := ha x hx
          simp only [Bool.not_eq_eq_eq_not, Bool.not_true, beq_eq_false_iff_ne,
            ne_eq]
          omega
        rw [List.filter_cons, if_neg (by simp [hid]), List.filter_eq_self.mpr hall]
        simp
      · have hai : (!(a.id == i)) = true := by
          have hlt := ha r hr'
          simp only [Bool.not_eq_eq_eq_not, Bool.not_true, beq_eq_false_iff_ne,
            ne_eq]
          omega
        rw [List.filter_cons, if_pos hai]
        simp only [List.length_cons]
        have hlen := ih hp' hr'
        omega

theorem map_applyCompletion_of_no_match {l : List Todo} {i : Nat} (c : Bool)
    (t : Nat) (h : ∀ x ∈ l, x.id ≠ i) :
    l.map (applyCompletion i c t) = l := by
  induction l with
  | nil => rfl
  | cons a l ih =>
      rw [List.map_cons, applyCompletion_of_ne c t (h a (List.mem_cons_self a l)),
        ih (fun x hx => h x (List.mem_cons_of_mem a hx))]

theorem updateTodoCompletion_fst_of_mem {db : DB} {t : Nat}
    {input : UpdateTodoCompletionInput} {r : Todo}
    (hp : db.rows.Pairwise (fun a b => a.id < b.id))
    (hr : r ∈ db.rows) (hid : r.id = input.id) :
    (updateTodoCompletion db t input).1 =
      Except.ok { r with completed := input.completed, updated_at := t } := by
  have hp' : (db.rows.map (applyCompletion input.id input.completed t)).Pairwise
      (fun a b => a.id < b.id) :=
    hp.map _ (fun a b hab => by rwa [applyCompletion_id, applyCompletion_id])
  have hmem : applyCompletion input.id input.completed t r ∈
      db.rows.map (applyCompletion input.id input.completed t) :=
    List.mem_map_of_mem _ hr
  have hid' : (applyCompletion input.id input.completed t r).id = input.id := by
    rw [applyCompletion_id, hid]
  have hfilter := filter_eq_singleton_of_mem hp' hmem hid'
  have hfst : (updateTodoCompletion db t input).1 =
      (match (db.rows.map (applyCompletion input.id input.completed t)).filter
          (fun x => x.id == input.id) with
        | [] => Except.error ("Todo with id " ++ toString input.id ++ " not found")
        | s :: _ => Except.ok s) := rfl
  rw [hfst, hfilter]
  exact congrArg Except.ok (applyCompletion_of_eq _ _ hid)

theorem updateTodoCompletion_fst_of_no_match {db : DB} {t : Nat}
    {input : UpdateTodoCompletionInput}
    (h : ∀ x ∈ db.rows, x.id ≠ input.id) :
    (updateTodoCompletion db t input).1 =
      Except.error ("Todo with id " ++ toString input.id ++ " not found") := by
  have hnone : ∀ x ∈ db.rows.map (applyCompletion input.id input.completed t),
      ¬((x.id == input.id) = true) := by
    intro x hx
    rcases List.mem_map.mp hx with ⟨s, hs, rfl⟩
    rw [applyCompletion_id]
    simpa using h s hs
  have hfilter := List.filter_eq_nil_iff.mpr hnone
  have hfst : (updateTodoCompletion db t input).1 =
      (match (db.rows.map (applyCompletion input.id input.completed t)).filter
          (fun x => x.id == input.id) with
        | [] => Except.error ("Todo with id " ++ toString input.id ++ " not found")
        | s :: _ => Except.ok s) := rfl
  rw [hfst, hfilter]

/-! ### Preservation of well-formedness -/

theorem wf_mono {t t' : Nat} {db : DB} (h : WF t db) (htt : t ≤ t') :
    WF t' db := by
  obtain ⟨h1, h2, h3, h4⟩ := h
  exact ⟨h1, h2, h3, fun r hr => le_trans (h4 r hr) htt⟩

theorem wf_create {t : Nat} {db : DB} (input : CreateTodoInput) (h : WF t db) :
    WF t (createTodo db t input).2 := by
  obtain ⟨h1, h2, h3, h4⟩ := h
  unfold createTodo
  split
  · exact ⟨h1, h2, h3, h4⟩
  · refine ⟨?_, ?_, ?_, ?_⟩
    · refine List.pairwise_append.mpr ⟨h1, List.pairwise_singleton _ _, ?_⟩
      intro a ha b hb
      simp only [List.mem_singleton] at hb
      subst hb
      exact h2 a ha
    · intro r hr
      rcases List.mem_append.mp hr with hr | hr
      · exact Nat.lt_succ_of_lt (h2 r hr)
      · simp only [List.mem_singleton] at hr
        subst hr
        exact Nat.lt_succ_self _
    · intro r hr
      rcases List.mem_append.mp hr with hr | hr
      · exact h3 r hr
      · simp only [List.mem_singleton] at hr
        subst hr
        exact le_refl _
    · intro r hr
      rcases List.mem_append.mp hr with hr | hr
      · exact h4 r hr
      · simp only [List.mem_singleton] at hr
        subst hr
        exact le_refl _

theorem wf_update {t : Nat} {db : DB} (input : UpdateTodoCompletionInput)
    (h : WF t db) : WF t (updateTodoCompletion db t input).2 := by
  obtain ⟨h1, h2, h3, h4⟩ := h
  rw [updateTodoCompletion_snd]
  refine ⟨?_, ?_, ?_, ?_⟩
  · exact h1.map _ (fun a b hab => by
      rwa [applyCompletion_id, applyCompletion_id])
  · intro r hr
    rcases List.mem_map.mp hr with ⟨s, hs, rfl⟩
    rw [applyCompletion_id]
    exact h2 s hs
  · intro r hr
    rcases List.mem_map.mp hr with ⟨s, hs, rfl⟩
    by_cases hid : s.id = input.id
    · rw [applyCompletion_of_eq _ _ hid]
      exact le_trans (h3 s hs) (h4 s hs)
    · rw [applyCompletion_of_ne _ _ hid]
      exact h3 s hs
  · intro r hr
    rcases List.mem_map.mp hr with ⟨s, hs, rfl⟩
    by_cases hid : s.id = input.id
    · rw [applyCompletion_of_eq _ _ hid]
    · rw [applyCompletion_of_ne _ _ hid]
      exact h4 s hs

theorem wf_delete {t : Nat} {db : DB} (input : DeleteTodoInput) (h : WF t db) :
    WF t (deleteTodo db input).2 := by
  obtain ⟨h1, h2, h3, h4⟩ := h
  rw [deleteTodo_snd]
  have hsub : (db.rows.filter (fun r => !(r.id == input.id))).Sublist db.rows :=
    List.filter_sublist _
  refine ⟨h1.sublist hsub, ?_, ?_, ?_⟩
  · exact fun r hr => h2 r (hsub.mem hr)
  · exact fun r hr => h3 r (hsub.mem hr)
  · exact fun r hr => h4 r (hsub.mem hr)

theorem reachable_wf {t : Nat} {db : DB} (h : Reachable t db) : WF t db := by
  induction h with
  | init =>
      exact ⟨List.Pairwise.nil, by simp [DB.empty], by simp [DB.empty],
        by simp [DB.empty]⟩
  | tick _ htt ih => exact wf_mono ih htt
  | create input _ ih => exact wf_create input ih
  | list _ ih => exact ih
  | update input _ ih => exact wf_update input ih
  | remove input _ ih => exact wf_delete input ih

theorem createTodo_rows_length {t : Nat} {db : DB} {input : CreateTodoInput}
    (h : input.title ≠ "") :
    (createTodo db t input).2.rows.length = db.rows.length + 1 := by
  unfold createTodo
  rw [if_neg (by simpa using h)]
  simp

theorem createMany_length {t : Nat} (inputs : List CreateTodoInput) :
    ∀ db : DB, (∀ i ∈ inputs, i.title ≠ "") →
      (createMany db t inputs).rows.length = db.rows.length + inputs.length := by
  induction inputs with
  | nil => intro db _; rfl
  | cons a l ih =>
      intro db hv
      have ha : a.title ≠ "" := hv a (List.mem_cons_self a l)
      have hrest := ih (createTodo db t a).2
        (fun i hi => hv i (List.mem_cons_of_mem a hi))
      show (createMany (createTodo db t a).2 t l).rows.length = _
      rw [hrest, createTodo_rows_length ha]
      simp only [List.length_cons]
      omega

/-! ### The claims -/

/-- C10: `getTodos` is read-only: the table state after the call is exactly
the table state before it, every row and timestamp included. -/
theorem getTodos_readonly (db : DB) : (getTodos db).2 = db := rfl

/-- C1: `getTodos` returns exactly the stored rows, in insertion order of
strictly ascending ids on every reachable table; it returns the empty
sequence on the empty table, and after `N` valid creations on top of `db`
(and no deletions) it returns `db.rows.length + N` items. -/
theorem getTodos_spec (t : Nat) (db : DB) (h : Reachable t db)
    (inputs : List CreateTodoInput) (hv : ∀ i ∈ inputs, i.title ≠ "") :
    (getTodos db).1 = db.rows ∧
    (getTodos db).1.Pairwise (fun a b => a.id < b.id) ∧
    (db.rows = [] → (getTodos db).1 = []) ∧
    (getTodos (createMany db t inputs)).1.length =
      db.rows.length + inputs.length := by
  refine ⟨rfl, (reachable_wf h).1, fun h' => h', ?_⟩
  exact createMany_length inputs db hv

/-- C1 witness: instantiated on the empty table with one creation. -/
theorem getTodos_spec_witness :
    (getTodos DB.empty).1 = DB.empty.rows ∧
    (getTodos DB.empty).1.Pairwise (fun a b => a.id < b.id) ∧
    (DB.empty.rows = [] → (getTodos DB.empty).1 = []) ∧
    (getTodos (createMany DB.empty 3
        [{ title := "Buy milk", description := none }])).1.length =
      DB.empty.rows.length + 1 :=
  getTodos_spec 3 DB.empty (Reachable.tick Reachable.init (Nat.zero_le 3))
    [{ title := "Buy milk", description := none }] (by decide)

/-- C8: every reachable table state has pairwise-distinct row ids, satisfies
created_at ≤ updated_at on every row, and stores a definite boolean in every
completed field. -/
theorem reachable_invariants {t : Nat} {db : DB} (h : Reachable t db) :
    (db.rows.map Todo.id).Nodup ∧
    (∀ r ∈ db.rows, r.created_at ≤ r.updated_at) ∧
    (∀ r ∈ db.rows, r.completed = true ∨ r.completed = false) := by
  obtain ⟨h1, h2, h3, h4⟩ := reachable_wf h
  refine ⟨?_, h3, fun r _ => ?_⟩
  · exact h1.map _ (fun a b hab => Nat.ne_of_lt hab)
  · cases hc : r.completed
    · exact Or.inr rfl
    · exact Or.inl rfl

/-- C8 witness: instantiated on the state reached by one creation followed by
one completion update. -/
theorem reachable_invariants_witness :
    (((updateTodoCompletion
          (createTodo DB.empty 0 { title := "Buy milk", description := none }).2
          0 { id := 1, completed := true }).2.rows.map Todo.id).Nodup ∧
      (∀ r ∈ (updateTodoCompletion
          (createTodo DB.empty 0 { title := "Buy milk", description := none }).2
          0 { id := 1, completed := true }).2.rows,
        r.created_at ≤ r.updated_at) ∧
      (∀ r ∈ (updateTodoCompletion
          (createTodo DB.empty 0 { title := "Buy milk", description := none }).2
          0 { id := 1, completed := true }).2.rows,
        r.completed = true ∨ r.completed = false)) :=
  reachable_invariants
    (Reachable.update { id := 1, completed := true }
      (Reachable.create { title := "Buy milk", description := none }
        Reachable.init))

/-- C2: updating the completion flag of an id with no matching row fails with
a not-found error naming that id, and the table after the call is exactly the
table before it: no row is created (or otherwise changed). -/
theorem update_not_found {db : DB} (t : Nat) (input : UpdateTodoCompletionInput)
    (h : ∀ r ∈ db.rows, r.id ≠ input.id) :
    (updateTodoCompletion db t input).1 =
      Except.error ("Todo with id " ++ toString input.id ++ " not found") ∧
    (updateTodoCompletion db t input).2 = db := by
  refine ⟨updateTodoCompletion_fst_of_no_match h, ?_⟩
  rw [updateTodoCompletion_snd, map_applyCompletion_of_no_match _ _ h]

/-- C2 witness: updating id 999 on the one-row sample table. -/
theorem update_not_found_witness :
    (updateTodoCompletion sampleDB 5 { id := 999, completed := true }).1 =
      Except.error ("Todo with id " ++ toString (999 : Nat) ++ " not found") ∧
    (updateTodoCompletion sampleDB 5 { id := 999, completed := true }).2 =
      sampleDB :=
  update_not_found 5 { id := 999, completed := true } (by decide)

/-- C3: deleting an id with no matching row returns success = false and
leaves the table exactly as it was; the operation's result type is a plain
success record, so it raises no not-found error on any input. -/
theorem delete_not_found {db : DB} (input : DeleteTodoInput)
    (h : ∀ r ∈ db.rows, r.id ≠ input.id) :
    (deleteTodo db input).1 = { success := false } ∧
    (deleteTodo db input).2 = db := by
  constructor
  · have hany : db.rows.any (fun r => r.id == input.id) = false := by
      rw [List.any_eq_false]
      intro x hx
      simpa using h x hx
    show ({ success := db.rows.any (fun r => r.id == input.id) } :
        DeleteResult) = _
    rw [hany]
  · rw [deleteTodo_snd, List.filter_eq_self.mpr ?_]
    intro x hx
    simpa using h x hx

/-- C3 witness: deleting id 99999 on the one-row sample table. -/
theorem delete_not_found_witness :
    (deleteTodo sampleDB { id := 99999 }).1 = { success := false } ∧
    (deleteTodo sampleDB { id := 99999 }).2 = sampleDB :=
  delete_not_found { id := 99999 } (by decide)

/-- C4: on a well-formed table, creating with a non-empty title succeeds and
yields a todo with completed = false, an id distinct from every stored row's
id, created_at equal to updated_at, and an absent description whenever the
input description was omitted or explicitly null. -/
theorem createTodo_spec {tw : Nat} {db : DB} (t : Nat)
    (input : CreateTodoInput) (hwf : WF tw db) (ht : input.title ≠ "") :
    ∃ todo : Todo,
      (createTodo db t input).1 = Except.ok todo ∧
      todo.completed = false ∧
      (∀ r ∈ db.rows, r.id ≠ todo.id) ∧
      todo.created_at = todo.updated_at ∧
      ((input.description = none ∨ input.description = some none) →
        todo.description = none) := by
  refine ⟨{ id := db.nextId, title := input.title,
            description := input.description.join, completed := false,
            created_at := t, updated_at := t }, ?_, rfl, ?_, rfl, ?_⟩
  · show (createTodo db t input).1 = _
    unfold createTodo
    rw [if_neg (by simpa using ht)]
  · intro r hr
    exact Nat.ne_of_lt (hwf.2.1 r hr)
  · rintro (hd | hd) <;> simp [hd, Option.join]

/-- C4 witness: creating "Buy milk" with an omitted description on the empty
table at time 7. -/
theorem createTodo_spec_witness :
    ∃ todo : Todo,
      (createTodo DB.empty 7 { title := "Buy milk", description := none }).1 =
        Except.ok todo ∧
      todo.completed = false ∧
      (∀ r ∈ DB.empty.rows, r.id ≠ todo.id) ∧
      todo.created_at = todo.updated_at ∧
      (((none : Option (Option String)) = none ∨
          (none : Option (Option String)) = some none) →
        todo.description = none) :=
  @createTodo_spec 0 DB.empty 7 { title := "Buy milk", description := none }
    (by decide) (by decide)

/-- C5: on a well-formed table, updating an existing id returns that row with
completed set to the given value, updated_at set to the server time, and id,
title, description and created_at unchanged; row by row, the new table agrees
with the old one except that rows matching the id get exactly that completed
and updated_at rewrite. -/
theorem update_existing {tw : Nat} {db : DB} (t : Nat)
    (input : UpdateTodoCompletionInput) {r : Todo} (hwf : WF tw db)
    (hr : r ∈ db.rows) (hid : r.id = input.id) :
    (updateTodoCompletion db t input).1 =
      Except.ok { id := r.id, title := r.title, description := r.description,
                  completed := input.completed, created_at := r.created_at,
                  updated_at := t } ∧
    List.Forall₂ (fun old new =>
        (old.id = input.id →
          new = { id := old.id, title := old.title,
                  description := old.description, completed := input.completed,
                  created_at := old.created_at, updated_at := t }) ∧
        (old.id ≠ input.id → new = old))
      db.rows (updateTodoCompletion db t input).2.rows := by
  constructor
  · exact updateTodoCompletion_fst_of_mem hwf.1 hr hid
  · rw [updateTodoCompletion_snd]
    refine forall₂_map_self _ _ _ (fun x _ => ⟨fun hx => ?_, fun hx => ?_⟩)
    · rw [applyCompletion_of_eq _ _ hx]
    · rw [applyCompletion_of_ne _ _ hx]

/-- C5 witness: completing the stored row of the one-row sample table at
server time 4. -/
theorem update_existing_witness :
    (updateTodoCompletion sampleDB 4 { id := 1, completed := true }).1 =
      Except.ok { id := 1, title := "Buy milk", description := none,
                  completed := true, created_at := 0, updated_at := 4 } ∧
    List.Forall₂ (fun old new =>
        (old.id = 1 →
          new = { id := old.id, title := old.title,
                  description := old.description, completed := true,
                  created_at := old.created_at, updated_at := 4 }) ∧
        (old.id ≠ 1 → new = old))
      sampleDB.rows
      (updateTodoCompletion sampleDB 4 { id := 1, completed := true }).2.rows :=
  @update_existing 0 sampleDB 4 { id := 1, completed := true }
    { id := 1, title := "Buy milk", description := none, completed := false,
      created_at := 0, updated_at := 0 }
    (by decide) (by decide) (by decide)

/-- C6: on a well-formed table, deleting an existing id returns
success = true, shrinks the table by exactly one row, keeps the surviving
rows a sublist of the old ones (each other row unchanged, order preserved),
keeps every row whose id differs, and the deleted id is absent from the
subsequent getTodos result. -/
theorem delete_existing {tw : Nat} {db : DB} (input : DeleteTodoInput)
    {r : Todo} (hwf : WF tw db) (hr : r ∈ db.rows) (hid : r.id = input.id) :
    (deleteTodo db input).1 = { success := true } ∧
    (deleteTodo db input).2.rows.length + 1 = db.rows.length ∧
    (deleteTodo db input).2.rows.Sublist db.rows ∧
    (∀ x ∈ db.rows, x.id ≠ input.id → x ∈ (deleteTodo db input).2.rows) ∧
    (∀ x ∈ (getTodos (deleteTodo db input).2).1, x.id ≠ input.id) := by
  refine ⟨?_, ?_, ?_, ?_, ?_⟩
  · have hany : db.rows.any (fun x => x.id == input.id) = true :=
      List.any_eq_true.mpr ⟨r, hr, by simp [hid]⟩
    show ({ success := db.rows.any (fun x => x.id == input.id) } :
        DeleteResult) = _
    rw [hany]
  · rw [deleteTodo_snd]
    exact filter_ne_length_of_mem hwf.1 hr hid
  · rw [deleteTodo_snd]
    exact List.filter_sublist _
  · intro x hx hne
    rw [deleteTodo_snd]
    exact List.mem_filter.mpr ⟨hx, by simpa using hne⟩
  · intro x hx
    rw [deleteTodo_snd] at hx
    simpa using (List.mem_filter.mp hx).2

/-- C6 witness: deleting the stored row of the one-row sample table. -/
theorem delete_existing_witness :
    (deleteTodo sampleDB { id := 1 }).1 = { success := true } ∧
    (deleteTodo sampleDB { id := 1 }).2.rows.length + 1 =
      sampleDB.rows.length ∧
    (deleteTodo sampleDB { id := 1 }).2.rows.Sublist sampleDB.rows ∧
    (∀ x ∈ sampleDB.rows,
      x.id ≠ 1 → x ∈ (deleteTodo sampleDB { id := 1 }).2.rows) ∧
    (∀ x ∈ (getTodos (deleteTodo sampleDB { id := 1 }).2).1, x.id ≠ 1) :=
  @delete_existing 0 sampleDB { id := 1 }
    { id := 1, title := "Buy milk", description := none, completed := false,
      created_at := 0, updated_at := 0 }
    (by decide) (by decide) (by decide)

/-- C7: on a well-formed table holding the id, updating completion to true at
a later server time and then to false at a yet later time returns
completed = false from the second call, strictly increases updated_at at each
call, and leaves created_at identical to the original row's across both
calls. -/
theorem update_toggle {t0 : Nat} {db : DB} (t1 t2 i : Nat) {r : Todo}
    (hwf : WF t0 db) (hr : r ∈ db.rows) (hid : r.id = i)
    (h01 : t0 < t1) (h12 : t1 < t2) :
    ∃ r1 r2 : Todo,
      (updateTodoCompletion db t1 { id := i, completed := true }).1 =
        Except.ok r1 ∧
      (updateTodoCompletion
          (updateTodoCompletion db t1 { id := i, completed := true }).2 t2
          { id := i, completed := false }).1 = Except.ok r2 ∧
      r2.completed = false ∧
      r.updated_at < r1.updated_at ∧ r1.updated_at < r2.updated_at ∧
      r1.created_at = r.created_at ∧ r2.created_at = r.created_at := by
  have hwf1 : WF t1 db := wf_mono hwf (le_of_lt h01)
  have hwfdb1 :
      WF t1 (updateTodoCompletion db t1 { id := i, completed := true }).2 :=
    wf_update _ hwf1
  have hX : applyCompletion i true t1 r =
      { id := r.id, title := r.title, description := r.description,
        completed := true, created_at := r.created_at, updated_at := t1 } :=
    applyCompletion_of_eq _ _ hid
  have hmem1 : ({ id := r.id, title := r.title,
                  description := r.description, completed := true,
                  created_at := r.created_at, updated_at := t1 } :
        Todo) ∈
      (updateTodoCompletion db t1 { id := i, completed := true }).2.rows := by
    rw [updateTodoCompletion_snd, ← hX]
    exact List.mem_map_of_mem _ hr
  refine ⟨{ id := r.id, title := r.title, description := r.description,
            completed := true, created_at := r.created_at, updated_at := t1 },
          { id := r.id, title := r.title, description := r.description,
            completed := false, created_at := r.created_at, updated_at := t2 },
          ?_, ?_, rfl, ?_, h12, rfl, rfl⟩
  · exact updateTodoCompletion_fst_of_mem hwf1.1 hr hid
  · exact @updateTodoCompletion_fst_of_mem
      (updateTodoCompletion db t1 { id := i, completed := true }).2 t2
      { id := i, completed := false }
      { id := r.id, title := r.title, description := r.description,
        completed := true, created_at := r.created_at, updated_at := t1 }
      hwfdb1.1 hmem1 hid
  · exact lt_of_le_of_lt (hwf.2.2.2 r hr) h01

/-- C7 witness: toggling the stored row of the one-row sample table at server
times 1 and 2. -/
theorem update_toggle_witness :
    ∃ r1 r2 : Todo,
      (updateTodoCompletion sampleDB 1 { id := 1, completed := true }).1 =
        Except.ok r1 ∧
      (updateTodoCompletion
          (updateTodoCompletion sampleDB 1 { id := 1, completed := true }).2 2
          { id := 1, completed := false }).1 = Except.ok r2 ∧
      r2.completed = false ∧
      ({ id := 1, title := "Buy milk", description := none, completed := false,
         created_at := 0, updated_at := 0 } : Todo).updated_at <
        r1.updated_at ∧
      r1.updated_at < r2.updated_at ∧
      r1.created_at = ({ id := 1, title := "Buy milk", description := none,
                         completed := false, created_at := 0,
                         updated_at := 0 } : Todo).created_at ∧
      r2.created_at = ({ id := 1, title := "Buy milk", description := none,
                         completed := false, created_at := 0,
                         updated_at := 0 } : Todo).created_at :=
  @update_toggle 0 sampleDB 1 2 1
    { id := 1, title := "Buy milk", description := none, completed := false,
      created_at := 0, updated_at := 0 }
    (by decide) (by decide) (by decide) (by decide) (by decide)

/-- C9: the completion update writes the given value rather than flipping the
stored one: after one update every row matching the id holds exactly the
input value, and a second identical update leaves the completed field of
every row exactly as after the first. -/
theorem update_idempotent {tw : Nat} {db : DB} (t1 t2 : Nat)
    (input : UpdateTodoCompletionInput) {r : Todo}
    (_hwf : WF tw db) (_hr : r ∈ db.rows) (_hid : r.id = input.id) :
    (∀ x ∈ (updateTodoCompletion db t1 input).2.rows,
       x.id = input.id → x.completed = input.completed) ∧
    ((updateTodoCompletion (updateTodoCompletion db t1 input).2 t2
        input).2.rows.map Todo.completed =
      (updateTodoCompletion db t1 input).2.rows.map Todo.completed) := by
  constructor
  · intro x hx hxid
    rw [updateTodoCompletion_snd] at hx
    rcases List.mem_map.mp hx with ⟨s, hs, rfl⟩
    rw [applyCompletion_id] at hxid
    rw [applyCompletion_of_eq _ _ hxid]
  · show ((db.rows.map (applyCompletion input.id input.completed t1)).map
        (applyCompletion input.id input.completed t2)).map Todo.completed =
      (db.rows.map (applyCompletion input.id input.completed t1)).map
        Todo.completed
    rw [List.map_map]
    refine List.map_congr_left ?_
    intro a ha
    rcases List.mem_map.mp ha with ⟨s, hs, rfl⟩
    by_cases hsid : s.id = input.id
    · rw [applyCompletion_of_eq _ _ hsid]
      simp [Function.comp, applyCompletion_of_eq _ _ (show
        ({ id := s.id, title := s.title, description := s.description,
           completed := input.completed, created_at := s.created_at,
           updated_at := t1 } : Todo).id = input.id from hsid)]
    · rw [applyCompletion_of_ne _ _ hsid]
      simp [Function.comp, applyCompletion_of_ne _ _ hsid]

/-- C9 witness: updating the stored row of the one-row sample table to true
twice, at server times 3 and 4. -/
theorem update_idempotent_witness :
    (∀ x ∈ (updateTodoCompletion sampleDB 3
        { id := 1, completed := true }).2.rows,
      x.id = 1 → x.completed = true) ∧
    ((updateTodoCompletion
        (updateTodoCompletion sampleDB 3 { id := 1, completed := true }).2 4
        { id := 1, completed := true }).2.rows.map Todo.completed =
      (updateTodoCompletion sampleDB 3
        { id := 1, completed := true }).2.rows.map Todo.completed) :=
  @update_idempotent 0 sampleDB 3 4 { id := 1, completed := true }
    { id := 1, title := "Buy milk", description := none, completed := false,
      created_at := 0, updated_at := 0 }
    (by decide) (by decide) (by decide)

end TodoApp
